import Mathlib

/-!
Verification development for `nbt2cdb.py`, a converter from NBT voxel
structures to CDB chunk-database records.

The Python source is shallowly embedded: Python unbounded integers become
`Int` (or `Nat` where the source value is provably non-negative), byte
buffers become `List Nat`, fallible operations return `Option`/`Except`.
Bit operations on non-negative ranges are rendered arithmetically:
`v & 0x3FFF` is `v % 16384` (Python's `&` with an all-ones mask agrees with
floored modulus, which for a positive modulus agrees with Lean's `%` on
`Int`), `v >> k` is `v / 2 ^ k`, and an `|` of disjoint bit fields is `+`.
-/

/-- `encode_position` (nbt2cdb.py lines 40-48): pack signed chunk x/z and a
dimension into one 32-bit value as `(dim <<< 28) ||| (z <<< 14) ||| x` after
the negative adjustment and masking.  The three fields are reduced below
16, 2^14 and 2^14 respectively, so the bitwise or of the shifted fields is
the sum written here. -/
def encode_position (x z dim : Int) : Int :=
  let x1 := if x < 0 then x + 16384 else x
  let z1 := if z < 0 then z + 16384 else z
  let x2 := x1 % 16384
  let z2 := z1 % 16384
  let dim2 := dim % 16
  dim2 * 268435456 + z2 * 16384 + x2

/-- `CDBPosition` (nbt2cdb.py lines 50-66): holds the three unpacked fields;
`to_signed` later re-signs x and z in place, so the fields are `Int`. -/
structure CDBPosition where
  x : Int
  z : Int
  dimension : Int
deriving DecidableEq

/-- `CDBPosition.__init__` (lines 51-54): `x = val & 0x3FFF`,
`z = (val >> 14) & 0x3FFF`, `dimension = (val >> 28) & 0xF`. -/
def CDBPosition.ofVal (val : Nat) : CDBPosition :=
  { x := (val % 16384 : Nat)
    z := (val / 16384 % 16384 : Nat)
    dimension := (val / 268435456 % 16 : Nat) }

/-- `CDBPosition.to_signed` (lines 56-62): subtract 2^14 from x and z when
they are at least 2^13. -/
def CDBPosition.to_signed (p : CDBPosition) : CDBPosition :=
  { x := if p.x ≥ 8192 then p.x - 16384 else p.x
    z := if p.z ≥ 8192 then p.z - 16384 else p.z
    dimension := p.dimension }

/-- `CDBPosition.parse_position` (lines 64-66): sign the fields and return
the triple `(x, z, dimension)`. -/
def CDBPosition.parse_position (p : CDBPosition) : Int × Int × Int :=
  ((p.to_signed).x, (p.to_signed).z, (p.to_signed).dimension)

/-- C1: for every x and z in [-8192, 8191] and dim in [0, 15], decoding the
result of `encode_position x z dim` with `CDBPosition.parse_position`
returns exactly the triple `(x, z, dim)`. -/
theorem parse_position_encode_position (x z dim : Int)
    (hx1 : -8192 ≤ x) (hx2 : x ≤ 8191)
    (hz1 : -8192 ≤ z) (hz2 : z ≤ 8191)
    (hd1 : 0 ≤ dim) (hd2 : dim ≤ 15) :
    (CDBPosition.ofVal (encode_position x z dim).toNat).parse_position
      = (x, z, dim) := by
  unfold CDBPosition.parse_position CDBPosition.to_signed CDBPosition.ofVal
    encode_position
  simp only [Prod.mk.injEq]
  refine ⟨?_, ?_, ?_⟩ <;> split_ifs <;> omega

/-- Witness for C1 at the concrete input (-1, -1, 0). -/
theorem parse_position_encode_position_witness :
    (CDBPosition.ofVal (encode_position (-1) (-1) 0).toNat).parse_position
      = (-1, -1, 0) :=
  parse_position_encode_position (-1) (-1) 0 (by decide) (by decide)
    (by decide) (by decide) (by decide) (by decide)

/-- C10: for every 32-bit value v, re-encoding the triple obtained from
`CDBPosition.parse_position` gives back exactly v: the 14+14+4-bit packing
loses no information on any u32 input. -/
theorem encode_position_parse_position (v : Nat) (hv : v < 4294967296) :
    encode_position ((CDBPosition.ofVal v).parse_position).1
      ((CDBPosition.ofVal v).parse_position).2.1
      ((CDBPosition.ofVal v).parse_position).2.2 = (v : Int) := by
  unfold CDBPosition.parse_position CDBPosition.to_signed CDBPosition.ofVal
    encode_position
  simp only
  split_ifs <;> omega

/-- Witness for C10 at the concrete input 0x0FFFFFFF. -/
theorem encode_position_parse_position_witness :
    encode_position ((CDBPosition.ofVal 268435455).parse_position).1
      ((CDBPosition.ofVal 268435455).parse_position).2.1
      ((CDBPosition.ofVal 268435455).parse_position).2.2
      = (268435455 : Int) :=
  encode_position_parse_position 268435455 (by decide)

/-- `struct.pack("<H", v)` for one field: two little-endian bytes; raises
(`Except.error`) outside `[0, 65536)` exactly as Python `struct` does. -/
def packU16 (v : Int) : Except String (List Nat) :=
  if 0 ≤ v ∧ v < 65536 then Except.ok [v.toNat % 256, v.toNat / 256]
  else Except.error "struct.error"

/-- `CDBEntry` (nbt2cdb.py lines 86-96): the eight u16 fields of one index
record, with the constructor defaults 0x20FF, 0xA, 0x1, 0x8000. -/
structure CDBEntry where
  x_bitfield : Int
  z_bitfield : Int
  slot_number : Int
  subfile : Int
  constant0 : Int := 0x20FF
  unknown0 : Int := 0xA
  unknown1 : Int := 0x1
  constant1 : Int := 0x8000
deriving DecidableEq

/-- `CDBEntry.pack` (lines 98-109): `struct.pack("<HHHHHHHH", ...)`; the
single Python call validates every field's range and concatenates the eight
2-byte encodings. -/
def CDBEntry.pack (e : CDBEntry) : Except String (List Nat) :=
  match packU16 e.x_bitfield, packU16 e.z_bitfield, packU16 e.slot_number,
      packU16 e.subfile, packU16 e.constant0, packU16 e.unknown0,
      packU16 e.unknown1, packU16 e.constant1 with
  | Except.ok b0, Except.ok b1, Except.ok b2, Except.ok b3, Except.ok b4,
      Except.ok b5, Except.ok b6, Except.ok b7 =>
    Except.ok (b0 ++ b1 ++ b2 ++ b3 ++ b4 ++ b5 ++ b6 ++ b7)
  | _, _, _, _, _, _, _, _ => Except.error "struct.error"

/-- `update_index_entry` (nbt2cdb.py lines 112-128).  The index file is
modelled as `Option (List Nat)`: `none` when `index.cdb` does not exist (the
function then skips without error), `some bytes` for its current content.
Appending with mode "ab" adds the packed record at the end. -/
def update_index_entry (indexFile : Option (List Nat)) (x z slot : Int) :
    Except String (Option (List Nat)) :=
  match indexFile with
  | none => Except.ok none
  | some bytes =>
    let x_bf := x % 16384
    let x_bf := if x < 0 then (x + 16384) % 16384 else x_bf
    let z_bf := z % 16384
    let z_bf := if z < 0 then (z + 16384) % 16384 else z_bf
    match (CDBEntry.mk x_bf z_bf slot 0 0x20FF 0xA 0x1 0x8000).pack with
    | Except.error e => Except.error e
    | Except.ok r => Except.ok (some (bytes ++ r))

/-- The sixteen bytes the claim says one append must produce: u16
little-endian fields (x_bitfield, z_bitfield, slot, 0, 0x20FF, 0xA, 0x1,
0x8000) with `x_bitfield = (x + 2^14) & 0x3FFF` for negative x and
`x & 0x3FFF` otherwise (same for z). -/
def entryBytes (x z slot : Int) : List Nat :=
  let xbf := if x < 0 then (x + 16384) % 16384 else x % 16384
  let zbf := if z < 0 then (z + 16384) % 16384 else z % 16384
  [xbf.toNat % 256, xbf.toNat / 256, zbf.toNat % 256, zbf.toNat / 256,
   slot.toNat % 256, slot.toNat / 256, 0, 0, 0xFF, 0x20, 0xA, 0, 1, 0,
   0, 0x80]

/-- One append with the index file present produces the old bytes followed
by the 16-byte record. -/
theorem update_index_entry_eq (bytes : List Nat) (x z slot : Int)
    (h1 : 0 ≤ slot) (h2 : slot < 65536) :
    update_index_entry (some bytes) x z slot
      = Except.ok (some (bytes ++ entryBytes x z slot)) := by
  simp only [update_index_entry, CDBEntry.pack, packU16, entryBytes]
  split_ifs <;> first
    | simp
    | omega

/-- C7: when index.cdb exists, one `update_index_entry` call appends exactly
the 16-byte record described by the claim, leaves every pre-existing byte in
place, and a second call appends its own record after the first, each
carrying the slot number passed to it. -/
theorem update_index_entry_appends (bytes : List Nat) (x z x2 z2 slot slot2 : Int)
    (h1 : 0 ≤ slot) (h2 : slot < 65536)
    (h3 : 0 ≤ slot2) (h4 : slot2 < 65536) :
    update_index_entry (some bytes) x z slot
        = Except.ok (some (bytes ++ entryBytes x z slot)) ∧
      (entryBytes x z slot).length = 16 ∧
      (bytes ++ entryBytes x z slot).take bytes.length = bytes ∧
      update_index_entry (some (bytes ++ entryBytes x z slot)) x2 z2 slot2
        = Except.ok (some (bytes ++ entryBytes x z slot ++ entryBytes x2 z2 slot2)) := by
  refine ⟨update_index_entry_eq bytes x z slot h1 h2, rfl, by simp, ?_⟩
  rw [update_index_entry_eq (bytes ++ entryBytes x z slot) x2 z2 slot2 h3 h4]

/-- Witness for C7 at concrete inputs: existing content [7], then appends at
(-1, 2, slot 5) and (3, -4, slot 6). -/
theorem update_index_entry_appends_witness :
    update_index_entry (some [7]) (-1) 2 5
        = Except.ok (some ([7] ++ entryBytes (-1) 2 5)) ∧
      (entryBytes (-1) 2 5).length = 16 ∧
      ([7] ++ entryBytes (-1) 2 5).take [7].length = [7] ∧
      update_index_entry (some ([7] ++ entryBytes (-1) 2 5)) 3 (-4) 6
        = Except.ok (some ([7] ++ entryBytes (-1) 2 5 ++ entryBytes 3 (-4) 6)) :=
  update_index_entry_appends [7] (-1) 2 3 (-4) 5 6 (by decide) (by decide)
    (by decide) (by decide)

/-- One value of an NBT list entry as far as `int(d)` is concerned: either
an integer-like tag or something `int()` rejects. -/
inductive NbtNum where
  | i (n : Int)
  | nan
deriving DecidableEq

/-- Python `int(d)`: succeeds on integer-like tags, raises otherwise. -/
def pyInt : NbtNum → Option Int
  | NbtNum.i n => some n
  | NbtNum.nan => none

/-- `[int(d) for d in ...]` (nbt2cdb.py line 210): left to right, first
failure aborts the whole comprehension. -/
def intList : List NbtNum → Option (List Int)
  | [] => some []
  | d :: rest =>
    match pyInt d, intList rest with
    | some n, some ns => some (n :: ns)
    | _, _ => none

/-- One entry of the `blocks` list: `pos` as three ints, `state` palette
index (`b.get("state", 0)` already applied). -/
structure NbtBlock where
  pos : Int × Int × Int
  state : Int
deriving DecidableEq

/-- One palette entry: `Name` string (with the `entry.get` default already
applied) and its `Properties` key/value pairs. -/
structure NbtPaletteEntry where
  name : String
  props : List (String × String)
deriving DecidableEq

/-- The loaded NBT file as `parse_nbt_structure` reads it: each key may be
absent (`none`), in which case `nbt_file.get(key, default)` supplies the
default. -/
structure NbtFile where
  blocks : Option (List NbtBlock)
  size : Option (List NbtNum)
  palette : Option (List NbtPaletteEntry)
deriving DecidableEq

/-- The distinct failure modes of `parse_nbt_structure`: the
`ValueError("Invalid NBT")` raised from the try block, the
`ValueError("Size mismatch")` raised by the final check, an uncaught
`IndexError` from `flat[idx] = ...`, and the uncaught unpacking error of
`width, height, length = size` when `size` does not have three entries. -/
inductive PyErr where
  | invalidNBT
  | sizeMismatch
  | indexError
  | unpackError
deriving DecidableEq

/-- `format_block_name` (nbt2cdb.py lines 32-35): canonical
`name[k1=v1,...]` with properties sorted by key (Python `sorted` on pairs:
key first, then value). -/
def format_block_name (name : String) (props : List (String × String)) : String :=
  let comma := ","
  let lbr := "["
  let rbr := "]"
  let eqs := "="
  if props = [] then name
  else
    let sorted := props.mergeSort fun a b =>
      decide (a.1 < b.1) || (a.1 == b.1 && decide (a.2 ≤ b.2))
    name ++ lbr ++ String.intercalate comma
      (sorted.map fun kv => kv.1 ++ eqs ++ kv.2) ++ rbr

/-- `palmap.get(state, "minecraft:air")` where `palmap` enumerates the
palette (lines 216-220, 229): an in-range index yields the formatted entry,
anything else the air default. -/
def palName (palette : List NbtPaletteEntry) (state : Int) : String :=
  if 0 ≤ state ∧ state < (palette.length : Int) then
    let e := palette.getD state.toNat ⟨"minecraft:air", []⟩
    format_block_name e.name e.props
  else "minecraft:air"

/-- Python `l[idx] = v` on a list: negative indices wrap once from the end;
anything still out of range raises IndexError (`none`). -/
def pySet {α : Type} (l : List α) (idx : Int) (v : α) : Option (List α) :=
  let i := if idx < 0 then idx + l.length else idx
  if 0 ≤ i ∧ i < (l.length : Int) then some (l.set i.toNat v) else none

/-- The `for b in blocks` loop of `parse_nbt_structure` (lines 226-232):
look the palette index up, resolve the canonical name through the inverse
block map (`bmap`, defaulting to (0,0)), and store at the y-major linear
index. -/
def writeBlocks (bmap : String → Nat × Nat) (palette : List NbtPaletteEntry)
    (width length : Int) :
    List (Nat × Nat) → List NbtBlock → Option (List (Nat × Nat))
  | flat, [] => some flat
  | flat, b :: rest =>
    let idx := b.pos.2.1 * (width * length) + b.pos.2.2 * width + b.pos.1
    match pySet flat idx (bmap (palName palette b.state)) with
    | none => none
    | some flat2 => writeBlocks bmap palette width length flat2 rest

/-- `parse_nbt_structure` (nbt2cdb.py lines 206-238).  `bmap` stands for
`inverse_block_map.get(name, (0, 0))`.  Missing keys fall back to the
`.get` defaults; a failing `int(d)` inside the try block becomes
`ValueError("Invalid NBT")`; `flat` is preallocated as
`[(0, 0)] * total` (empty when `total` is negative, as in Python); the
final length check raises `ValueError("Size mismatch")`. -/
def parse_nbt_structure (bmap : String → Nat × Nat) (f : NbtFile) :
    Except PyErr (List (Nat × Nat) × (Int × Int × Int)) :=
  let blocks := f.blocks.getD []
  match intList (f.size.getD [NbtNum.i 0, NbtNum.i 0, NbtNum.i 0]) with
  | none => Except.error PyErr.invalidNBT
  | some sz =>
    let palette := f.palette.getD []
    match sz with
    | [width, height, length] =>
      let total := width * height * length
      let flat : List (Nat × Nat) := List.replicate total.toNat (0, 0)
      match writeBlocks bmap palette width length flat blocks with
      | none => Except.error PyErr.indexError
      | some flat2 =>
        if (flat2.length : Int) ≠ total then Except.error PyErr.sizeMismatch
        else Except.ok (flat2, (width, height, length))
    | _ => Except.error PyErr.unpackError

/-- An inverse block map that resolves nothing: every name gets the
(0, 0) default, like `inverse_block_map.get` on an empty table. -/
def bmap0 : String → Nat × Nat := fun _ => (0, 0)

/-- C4 counterexample: the declared size [1,1,1] disagrees with the actual
block volume (one block at (1,0,0)), yet `parse_nbt_structure` raises
IndexError from the block write, not SizeMismatch. -/
theorem parse_size_corruption_not_size_mismatch :
    parse_nbt_structure bmap0
        ⟨some [⟨(1, 0, 0), 0⟩], some [NbtNum.i 1, NbtNum.i 1, NbtNum.i 1], none⟩
      = Except.error PyErr.indexError ∧
    PyErr.indexError ≠ PyErr.sizeMismatch :=
  ⟨rfl, by decide⟩

/-- C4 (amended): `parse_nbt_structure` never returns a silently-truncated
flat array: whenever it returns at all, the flat array length equals the
declared `width * height * length`. -/
theorem parse_nbt_structure_length (bmap : String → Nat × Nat) (f : NbtFile)
    (flat : List (Nat × Nat)) (sz : Int × Int × Int)
    (h : parse_nbt_structure bmap f = Except.ok (flat, sz)) :
    (flat.length : Int) = sz.1 * sz.2.1 * sz.2.2 := by
  unfold parse_nbt_structure at h
  split at h
  · exact Except.noConfusion h
  · dsimp only [] at h
    split at h
    · split at h
      · exact Except.noConfusion h
      · split at h
        · exact Except.noConfusion h
        · rename_i hlen
          simp only [Except.ok.injEq, Prod.mk.injEq] at h
          obtain ⟨h1, h2⟩ := h
          subst h1
          subst h2
          simp only [ne_eq, not_not] at hlen
          simpa using hlen
    · exact Except.noConfusion h

/-- Witness for C4's amended theorem at a concrete successful parse. -/
theorem parse_nbt_structure_length_witness :
    (([((0 : Nat), (0 : Nat))] : List (Nat × Nat)).length : Int)
      = (1 : Int) * 1 * 1 :=
  parse_nbt_structure_length bmap0
    ⟨some [], some [NbtNum.i 1, NbtNum.i 1, NbtNum.i 1], none⟩
    [(0, 0)] (1, 1, 1) rfl

/-- C5 counterexample: blocks, palette and even size keys all absent, yet
`parse_nbt_structure` succeeds with the `.get` defaults instead of failing
with InvalidStructure. -/
theorem parse_missing_keys_not_invalid :
    parse_nbt_structure bmap0 ⟨none, none, none⟩
        = Except.ok ([], (0, 0, 0)) ∧
      ∀ e : PyErr, parse_nbt_structure bmap0 ⟨none, none, none⟩
        ≠ Except.error e :=
  ⟨rfl, fun _ h => Except.noConfusion h⟩

/-- `intList` fails as soon as one entry is not integer-like. -/
theorem intList_eq_none {l : List NbtNum} (h : NbtNum.nan ∈ l) :
    intList l = none := by
  induction l with
  | nil => cases h
  | cons d rest ih =>
    cases d with
    | i n =>
      have : NbtNum.nan ∈ rest := by
        cases h with
        | tail _ hm => exact hm
      simp [intList, pyInt, ih this]
    | nan => simp [intList, pyInt]

/-- C5 (amended): a non-integer entry in the `size` list makes
`parse_nbt_structure` fail with InvalidStructure (the caught
`ValueError("Invalid NBT")`), before any output is produced. -/
theorem parse_invalid_on_non_integer_size (bmap : String → Nat × Nat)
    (f : NbtFile) (l : List NbtNum) (hs : f.size = some l)
    (hn : NbtNum.nan ∈ l) :
    parse_nbt_structure bmap f = Except.error PyErr.invalidNBT := by
  unfold parse_nbt_structure
  rw [hs]
  simp [intList_eq_none hn]

/-- Witness for C5's amended theorem: a size list containing a non-integer
entry. -/
theorem parse_invalid_on_non_integer_size_witness :
    parse_nbt_structure bmap0 ⟨none, some [NbtNum.nan], none⟩
      = Except.error PyErr.invalidNBT :=
  parse_invalid_on_non_integer_size bmap0
    ⟨none, some [NbtNum.nan], none⟩ [NbtNum.nan] rfl (by simp)

/-- The byte appended for one (subchunk, x, z, sub_y) position of the
byte-plane loop (nbt2cdb.py lines 140-150): 0 above the declared height,
otherwise `flat[idx][0]` when the y-major linear index is in range, else 0. -/
def blockByte (chunk_x chunk_z : Int) (flat : List (Nat × Nat))
    (width height length : Int) (subchunk x z sub_y : Nat) : Nat :=
  let actual_y := subchunk * 16 + sub_y
  if (actual_y : Int) ≥ height then 0
  else
    let wx := chunk_x * 16 + x
    let wz := chunk_z * 16 + z
    let idx := (actual_y : Int) * (width * length) + wz * width + wx
    if 0 ≤ idx ∧ idx < (flat.length : Int) then (flat.getD idx.toNat (0, 0)).1
    else 0

/-- Byte-plane of one subchunk (lines 140-150): 16·16·16 bytes appended with
x outermost, then z, then sub_y innermost, so the byte for (x, z, sub_y)
sits at offset x·256 + z·16 + sub_y. -/
def bytePlane (chunk_x chunk_z : Int) (flat : List (Nat × Nat))
    (width height length : Int) (subchunk : Nat) : List Nat :=
  (List.range 16).flatMap fun x =>
    (List.range 16).flatMap fun z =>
      (List.range 16).map fun sub_y =>
        blockByte chunk_x chunk_z flat width height length subchunk x z sub_y

/-- One iteration of the nibble-packing loop (lines 154-171), acting on the
buffer: compute the metadata nibble, then or it into the low or high nibble
of byte `local_index >> 1`. -/
def nibbleStep (chunk_x chunk_z : Int) (flat : List (Nat × Nat))
    (width height length : Int) (subchunk : Nat)
    (buf : List Nat) (t : Nat × Nat × Nat) : List Nat :=
  let sub_y := t.1
  let z := t.2.1
  let x := t.2.2
  let actual_y := subchunk * 16 + sub_y
  let nibble_value :=
    if (actual_y : Int) ≥ height then 0
    else
      let wx := chunk_x * 16 + x
      let wz := chunk_z * 16 + z
      let idx := (actual_y : Int) * (width * length) + wz * width + wx
      if 0 ≤ idx ∧ idx < (flat.length : Int) then (flat.getD idx.toNat (0, 0)).2
      else 0
  let local_index := sub_y * 256 + z * 16 + x
  let byte_i := local_index / 2
  if local_index % 2 == 0 then
    buf.set byte_i (((buf.getD byte_i 0).land 0xF0).lor nibble_value)
  else
    buf.set byte_i (((buf.getD byte_i 0).land 0x0F).lor (nibble_value <<< 4))

/-- Iteration order of the nibble loop: sub_y outer, then z, then x. -/
def nibbleTriples : List (Nat × Nat × Nat) :=
  (List.range 16).flatMap fun sub_y =>
    (List.range 16).flatMap fun z =>
      (List.range 16).map fun x => (sub_y, z, x)

/-- The nibble buffer of one subchunk.  NOTE: the source allocates
`nibbles = bytearray(0x1000)` — 4096 bytes — although the packing loop only
ever touches bytes below 0x800; the whole 4096-byte buffer is then appended
to the raw stream. -/
def nibblePlane (chunk_x chunk_z : Int) (flat : List (Nat × Nat))
    (width height length : Int) (subchunk : Nat) : List Nat :=
  nibbleTriples.foldl
    (nibbleStep chunk_x chunk_z flat width height length subchunk)
    (List.replicate 4096 0)

/-- The biome byte for local (x, z) (lines 180-185): the guard in the source
is `0 <= idx < len(flat)` on the linear index `wz*width + wx`, with default
biome 1 otherwise. -/
def biomeValue (chunk_x chunk_z : Int) (flat : List (Nat × Nat))
    (width : Int) (x z : Nat) : Nat :=
  let wx := chunk_x * 16 + x
  let wz := chunk_z * 16 + z
  let idx := wz * width + wx
  if 0 ≤ idx ∧ idx < (flat.length : Int) then (flat.getD idx.toNat (0, 0)).1
  else 1

/-- The 256-byte biome plane (lines 179-186).  The source assigns
`biomes[x*16+z]` iterating x outer and z inner over a zero-initialized
256-byte buffer; those writes hit positions 0, 1, ..., 255 in exactly
increasing order, so the buffer equals this generation by position. -/
def biomePlane (chunk_x chunk_z : Int) (flat : List (Nat × Nat))
    (width : Int) : List Nat :=
  (List.range 16).flatMap fun x =>
    (List.range 16).map fun z => biomeValue chunk_x chunk_z flat width x z

/-- `struct.pack("<H", v)` where the value is known to fit 16 bits. -/
def u16le (v : Nat) : List Nat := [v % 256, v / 256 % 256]

/-- `struct.pack("<I", v)` for a non-negative 32-bit value. -/
def u32le (v : Nat) : List Nat :=
  [v % 256, v / 256 % 256, v / 65536 % 256, v / 16777216 % 256]

/-- `struct.pack("<i", v)`: two's-complement little-endian. -/
def i32le (v : Int) : List Nat := u32le (v % 4294967296).toNat

/-- The uncompressed raw buffer built by `write_chunk_to_subfile`
(nbt2cdb.py lines 133-186): leading subchunk-count u16, then per subchunk
the byte-plane, the (4096-byte!) nibble buffer and 0x800 reserved zero
bytes, then the 0x100 zero footer and the 256-byte biome plane. -/
def rawChunk (chunk_x chunk_z : Int) (flat : List (Nat × Nat))
    (width height length : Int) : List Nat :=
  let subchunk_count := ((height + 15) / 16).toNat
  u16le subchunk_count
    ++ ((List.range subchunk_count).flatMap fun subchunk =>
        bytePlane chunk_x chunk_z flat width height length subchunk
          ++ nibblePlane chunk_x chunk_z flat width height length subchunk
          ++ List.replicate 0x800 0)
    ++ List.replicate 0x100 0
    ++ biomePlane chunk_x chunk_z flat width

/-- The full chunk record written at the subfile offset (lines 188-203):
magic, packed position, format bytes (1, 0), three reserved u16, the 6-slot
section table whose slot 0 carries (0, payload offset 112, compressedLen,
rawLen) and slots 1-5 the (-1, 0, 0, 0) sentinel, then the compressed
payload.  `compress` abstracts `zlib.compress`. -/
def chunkRecord (compress : List Nat → List Nat) (chunk_x chunk_z : Int)
    (flat : List (Nat × Nat)) (width height length : Int) : List Nat :=
  let raw := rawChunk chunk_x chunk_z flat width height length
  let comp := compress raw
  let hdr1 := u32le (encode_position chunk_x chunk_z 0).toNat ++ [1, 0]
    ++ u16le 0 ++ u16le 0 ++ u16le 0
  let section_offset : Int := 4 + (hdr1.length : Int) + 6 * 16
  let hdr := hdr1 ++ i32le 0 ++ i32le section_offset ++ i32le comp.length
    ++ i32le raw.length
    ++ ((List.range 5).flatMap fun _ =>
        i32le (-1) ++ i32le 0 ++ i32le 0 ++ i32le 0)
  u32le 0xABCDEF99 ++ hdr ++ comp

/-- flatMap over a range with constant block length L has length n·L. -/
theorem length_flatMap_const {α : Type} (f : Nat → List α) (n L : Nat)
    (hL : ∀ k, k < n → (f k).length = L) :
    ((List.range n).flatMap f).length = n * L := by
  induction n with
  | zero => simp
  | succ m ih =>
    rw [List.range_succ, List.flatMap_append]
    simp [ih fun k hk => hL k (Nat.lt_succ_of_lt hk),
      hL m (Nat.lt_succ_self m), Nat.succ_mul]

/-- Indexing a flatMap over a range with constant block length L:
position i·L + j falls in block i at offset j. -/
theorem getElem_flatMap_const {α : Type} (f : Nat → List α) (n L i j : Nat)
    (hL : ∀ k, k < n → (f k).length = L) (hi : i < n) (hj : j < L) :
    ((List.range n).flatMap f)[i * L + j]? = (f i)[j]? := by
  induction n with
  | zero => exact absurd hi (Nat.not_lt_zero i)
  | succ m ih =>
    rw [List.range_succ, List.flatMap_append]
    have hlen : ((List.range m).flatMap f).length = m * L :=
      length_flatMap_const f m L fun k hk => hL k (Nat.lt_succ_of_lt hk)
    rcases Nat.lt_or_ge i m with him | him
    · rw [List.getElem?_append_left]
      · exact ih (fun k hk => hL k (Nat.lt_succ_of_lt hk)) him
      · rw [hlen]
        calc i * L + j < i * L + L := Nat.add_lt_add_left hj _
          _ = (i + 1) * L := (Nat.succ_mul i L).symm
          _ ≤ m * L := Nat.mul_le_mul_right L him
    · have him2 : i = m := Nat.le_antisymm (Nat.lt_succ_iff.mp hi) him
      subst him2
      rw [List.getElem?_append_right (by rw [hlen]; exact Nat.le_add_right _ _)]
      rw [hlen, Nat.add_sub_cancel_left]
      simp

/-- A fold whose step keeps the buffer length keeps the buffer length. -/
theorem length_foldl_preserve {α β : Type} (g : List α → β → List α)
    (hg : ∀ buf t, (g buf t).length = buf.length) :
    ∀ (l : List β) (init : List α), (l.foldl g init).length = init.length := by
  intro l
  induction l with
  | nil => intro init; rfl
  | cons t rest ih => intro init; rw [List.foldl_cons, ih, hg]

/-- One nibble-loop iteration only overwrites one byte of the buffer. -/
theorem nibbleStep_length (chunk_x chunk_z : Int) (flat : List (Nat × Nat))
    (width height length : Int) (subchunk : Nat)
    (buf : List Nat) (t : Nat × Nat × Nat) :
    (nibbleStep chunk_x chunk_z flat width height length subchunk buf t).length
      = buf.length := by
  unfold nibbleStep
  dsimp only []
  split <;> rw [List.length_set]

/-- The byte-plane of a subchunk is 4096 bytes. -/
theorem bytePlane_length (chunk_x chunk_z : Int) (flat : List (Nat × Nat))
    (width height length : Int) (subchunk : Nat) :
    (bytePlane chunk_x chunk_z flat width height length subchunk).length
      = 4096 := by
  unfold bytePlane
  have hC : ∀ k, k < 16 →
      ((List.range 16).flatMap fun z => (List.range 16).map fun sub_y =>
        blockByte chunk_x chunk_z flat width height length subchunk k z
          sub_y).length = 256 := by
    intro k hk
    have hI : ∀ a, a < 16 →
        ((List.range 16).map fun sub_y =>
          blockByte chunk_x chunk_z flat width height length subchunk k a
            sub_y).length = 16 := by
      intro a ha
      rw [List.length_map, List.length_range]
    rw [length_flatMap_const _ 16 16 hI]
  rw [length_flatMap_const _ 16 256 hC]

/-- The nibble buffer of a subchunk is 4096 bytes: the source allocates
0x1000 bytes and only overwrites bytes in place. -/
theorem nibblePlane_length (chunk_x chunk_z : Int) (flat : List (Nat × Nat))
    (width height length : Int) (subchunk : Nat) :
    (nibblePlane chunk_x chunk_z flat width height length subchunk).length
      = 4096 := by
  unfold nibblePlane
  rw [length_foldl_preserve _
    (nibbleStep_length chunk_x chunk_z flat width height length subchunk),
    List.length_replicate]

/-- The biome plane is 256 bytes. -/
theorem biomePlane_length (chunk_x chunk_z : Int) (flat : List (Nat × Nat))
    (width : Int) :
    (biomePlane chunk_x chunk_z flat width).length = 256 := by
  unfold biomePlane
  have hC : ∀ k, k < 16 →
      ((List.range 16).map fun z =>
        biomeValue chunk_x chunk_z flat width k z).length = 16 := by
    intro k hk
    rw [List.length_map, List.length_range]
  rw [length_flatMap_const _ 16 16 hC]

/-- Raw buffer length as the code actually produces it:
2 + subchunk_count · (4096 + 4096 + 2048) + 256 + 256. -/
theorem rawChunk_length (chunk_x chunk_z : Int) (flat : List (Nat × Nat))
    (width height length : Int) :
    (rawChunk chunk_x chunk_z flat width height length).length
      = 2 + ((height + 15) / 16).toNat * 10240 + 512 := by
  unfold rawChunk
  have hC : ∀ k, k < ((height + 15) / 16).toNat →
      (bytePlane chunk_x chunk_z flat width height length k
        ++ nibblePlane chunk_x chunk_z flat width height length k
        ++ List.replicate 0x800 0).length = 10240 := by
    intro k hk
    rw [List.length_append, List.length_append, bytePlane_length,
      nibblePlane_length, List.length_replicate]
  rw [List.length_append, List.length_append, List.length_append,
    length_flatMap_const _ _ 10240 hC, biomePlane_length,
    List.length_replicate]
  rfl

/-- C2: the claim's raw-length formula
`2 + subchunk_count·(4096+2048+2048) + 256 + 256` does not match the code.
The source allocates the nibble buffer as `bytearray(0x1000)` (4096 bytes)
though its packing loop only addresses the first 0x800 bytes, and appends
the whole buffer, so each subchunk contributes 4096+4096+2048 bytes.  For a
chunk of height 16 (one subchunk) the raw buffer is 10754 bytes, not the
8706 the claim demands.  (The rawLen and compressedLen section-table fields
do hold `len(raw)` and `len(comp)` — see `chunkRecord` — only the length
formula is off.) -/
theorem rawChunk_length_diverges :
    (rawChunk 0 0 [] 16 16 16).length = 10754 ∧
      (10754 : Nat) ≠ 2 + 1 * (4096 + 2048 + 2048) + 256 + 256 := by
  refine ⟨?_, by decide⟩
  rw [rawChunk_length]
  decide

/-- Position x·256 + z·16 + sub_y of a subchunk byte-plane carries the byte
for local (x, z, sub_y): x outermost, then z, then sub_y innermost. -/
theorem bytePlane_getElem (chunk_x chunk_z : Int) (flat : List (Nat × Nat))
    (width height length : Int) (subchunk x z sub_y : Nat)
    (hx : x < 16) (hz : z < 16) (hy : sub_y < 16) :
    (bytePlane chunk_x chunk_z flat width height length subchunk)[x * 256 + z * 16 + sub_y]?
      = some (blockByte chunk_x chunk_z flat width height length subchunk x z sub_y) := by
  unfold bytePlane
  have hI : ∀ k, k < 16 → ∀ a, a < 16 →
      ((List.range 16).map fun sub_y =>
        blockByte chunk_x chunk_z flat width height length subchunk k a
          sub_y).length = 16 := by
    intro k hk a ha
    rw [List.length_map, List.length_range]
  have hC : ∀ k, k < 16 →
      ((List.range 16).flatMap fun zz => (List.range 16).map fun sy =>
        blockByte chunk_x chunk_z flat width height length subchunk k zz
          sy).length = 256 := by
    intro k hk
    rw [length_flatMap_const _ 16 16 (hI k hk)]
  rw [Nat.add_assoc,
    getElem_flatMap_const _ 16 256 x (z * 16 + sub_y) hC hx (by omega),
    getElem_flatMap_const _ 16 16 z sub_y (hI x hx) hz hy,
    List.getElem?_map, List.getElem?_range hy]
  rfl

/-- C3: in every subchunk s, the 4096-byte byte-plane is indexed with x
outermost, z middle, sub_y innermost (byte for (x,z,sub_y) at
x·256 + z·16 + sub_y); the byte is 0 when world_y = s·16+sub_y ≥ height,
and otherwise — for a world column inside the structure footprint, with the
flat array of the declared size and runtime ids fitting a byte — it is the
(low byte of the) runtime_id component of the voxel at the y-major linear
index of world coordinates (chunk_x·16+x, chunk_z·16+z, world_y). -/
theorem bytePlane_spec (chunk_x chunk_z : Int) (flat : List (Nat × Nat))
    (width height length : Int) (subchunk x z sub_y : Nat)
    (hx : x < 16) (hz : z < 16) (hy : sub_y < 16)
    (hlen : (flat.length : Int) = width * height * length)
    (hwf : ∀ p ∈ flat, p.1 < 256) :
    (bytePlane chunk_x chunk_z flat width height length subchunk).length = 4096 ∧
    (((subchunk * 16 + sub_y : Nat) : Int) ≥ height →
      (bytePlane chunk_x chunk_z flat width height length subchunk)[x * 256 + z * 16 + sub_y]?
        = some 0) ∧
    (((subchunk * 16 + sub_y : Nat) : Int) < height →
      0 ≤ chunk_x * 16 + (x : Int) → chunk_x * 16 + (x : Int) < width →
      0 ≤ chunk_z * 16 + (z : Int) → chunk_z * 16 + (z : Int) < length →
      (bytePlane chunk_x chunk_z flat width height length subchunk)[x * 256 + z * 16 + sub_y]?
        = some ((flat.getD (((subchunk * 16 + sub_y : Nat) : Int) * (width * length)
            + (chunk_z * 16 + (z : Int)) * width + (chunk_x * 16 + (x : Int))).toNat
            (0, 0)).1 % 256)) := by
  refine ⟨bytePlane_length chunk_x chunk_z flat width height length subchunk,
    ?_, ?_⟩
  · intro hge
    rw [bytePlane_getElem chunk_x chunk_z flat width height length subchunk
      x z sub_y hx hz hy]
    unfold blockByte
    rw [if_pos hge]
  · intro hlt hwx0 hwxw hwz0 hwzl
    rw [bytePlane_getElem chunk_x chunk_z flat width height length subchunk
      x z sub_y hx hz hy]
    unfold blockByte
    dsimp only []
    rw [if_neg (by omega)]
    set ay : Int := ((subchunk * 16 + sub_y : Nat) : Int) with hay
    set wx : Int := chunk_x * 16 + (x : Int) with hwx
    set wz : Int := chunk_z * 16 + (z : Int) with hwz
    have hw : 0 < width := lt_of_le_of_lt hwx0 hwxw
    have hl : 0 < length := lt_of_le_of_lt hwz0 hwzl
    have hay0 : 0 ≤ ay := by positivity
    have hh : 0 < height := lt_of_le_of_lt hay0 hlt
    have hidx0 : 0 ≤ ay * (width * length) + wz * width + wx := by
      have t1 : 0 ≤ ay * (width * length) :=
        mul_nonneg hay0 (mul_nonneg hw.le hl.le)
      have t2 : 0 ≤ wz * width := mul_nonneg hwz0 hw.le
      omega
    have hidx1 : ay * (width * length) + wz * width + wx
        < width * height * length := by
      have e1 : ay * (width * length) ≤ (height - 1) * (width * length) :=
        mul_le_mul_of_nonneg_right (by omega) (mul_nonneg hw.le hl.le)
      have e2 : wz * width ≤ (length - 1) * width :=
        mul_le_mul_of_nonneg_right (by omega) hw.le
      have e3 : (height - 1) * (width * length) + (length - 1) * width
          + (width - 1) = width * height * length - 1 := by ring
      omega
    rw [if_pos ⟨hidx0, by omega⟩]
    have hmem : flat.getD (ay * (width * length) + wz * width + wx).toNat
        (0, 0) ∈ flat := by
      have hlt2 : (ay * (width * length) + wz * width + wx).toNat
          < flat.length := by omega
      rw [List.getD_eq_getElem flat (0, 0) hlt2]
      exact List.getElem_mem hlt2
    rw [Nat.mod_eq_of_lt (hwf _ hmem)]

/-- Witness for C3 at a concrete chunk: a 1×1×1 structure with runtime id 7
at the origin, subchunk 0 and local position (0, 0, 0). -/
theorem bytePlane_spec_witness :
    (bytePlane 0 0 [(7, 0)] 1 1 1 0)[0 * 256 + 0 * 16 + 0]? = some 7 := by
  have h := (bytePlane_spec 0 0 [(7, 0)] 1 1 1 0 0 0 0 (by decide) (by decide)
    (by decide) (by decide) (by decide)).2.2 (by decide) (by decide)
    (by decide) (by decide) (by decide)
  simpa using h

/-- Position x·16 + z of the biome plane carries the biome byte for local
(x, z): x-major, transposed from the block planes. -/
theorem biomePlane_getElem (chunk_x chunk_z : Int) (flat : List (Nat × Nat))
    (width : Int) (x z : Nat) (hx : x < 16) (hz : z < 16) :
    (biomePlane chunk_x chunk_z flat width)[x * 16 + z]?
      = some (biomeValue chunk_x chunk_z flat width x z) := by
  unfold biomePlane
  have hC : ∀ k, k < 16 →
      ((List.range 16).map fun zz =>
        biomeValue chunk_x chunk_z flat width k zz).length = 16 := by
    intro k hk
    rw [List.length_map, List.length_range]
  rw [getElem_flatMap_const _ 16 16 x z hC hx hz, List.getElem?_map,
    List.getElem?_range hz]
  rfl

/-- C6 (amended): the biome byte at plane index local_x·16 + local_z is
governed by the guard the code actually has — `0 <= idx < len(flat)` on the
linear index idx = wz·width + wx — not by the structure footprint: when the
linear index is in range the byte is byte0 of `flat[idx]` (even if the world
column is outside the footprint), and the default 1 appears only when the
linear index is out of range.  Inside the footprint (flat of declared size,
height ≥ 1) the linear index is always in range, so the footprint half of
the original claim still holds. -/
theorem biomePlane_spec (chunk_x chunk_z : Int) (flat : List (Nat × Nat))
    (width height length : Int) (x z : Nat)
    (hx : x < 16) (hz : z < 16) (hwf : ∀ p ∈ flat, p.1 < 256) :
    (biomePlane chunk_x chunk_z flat width).length = 256 ∧
    (0 ≤ (chunk_z * 16 + (z : Int)) * width + (chunk_x * 16 + (x : Int)) →
      (chunk_z * 16 + (z : Int)) * width + (chunk_x * 16 + (x : Int))
          < (flat.length : Int) →
      (biomePlane chunk_x chunk_z flat width)[x * 16 + z]?
        = some ((flat.getD ((chunk_z * 16 + (z : Int)) * width
            + (chunk_x * 16 + (x : Int))).toNat (0, 0)).1 % 256)) ∧
    (¬ (0 ≤ (chunk_z * 16 + (z : Int)) * width + (chunk_x * 16 + (x : Int)) ∧
        (chunk_z * 16 + (z : Int)) * width + (chunk_x * 16 + (x : Int))
          < (flat.length : Int)) →
      (biomePlane chunk_x chunk_z flat width)[x * 16 + z]? = some 1) ∧
    ((flat.length : Int) = width * height * length → 1 ≤ height →
      0 ≤ chunk_x * 16 + (x : Int) → chunk_x * 16 + (x : Int) < width →
      0 ≤ chunk_z * 16 + (z : Int) → chunk_z * 16 + (z : Int) < length →
      0 ≤ (chunk_z * 16 + (z : Int)) * width + (chunk_x * 16 + (x : Int)) ∧
        (chunk_z * 16 + (z : Int)) * width + (chunk_x * 16 + (x : Int))
          < (flat.length : Int)) := by
  refine ⟨biomePlane_length chunk_x chunk_z flat width, ?_, ?_, ?_⟩
  · intro h0 h1
    rw [biomePlane_getElem chunk_x chunk_z flat width x z hx hz]
    unfold biomeValue
    dsimp only []
    rw [if_pos ⟨h0, h1⟩]
    have hlt2 : ((chunk_z * 16 + (z : Int)) * width
        + (chunk_x * 16 + (x : Int))).toNat < flat.length := by omega
    have hmem : flat.getD ((chunk_z * 16 + (z : Int)) * width
        + (chunk_x * 16 + (x : Int))).toNat (0, 0) ∈ flat := by
      rw [List.getD_eq_getElem flat (0, 0) hlt2]
      exact List.getElem_mem hlt2
    rw [Nat.mod_eq_of_lt (hwf _ hmem)]
  · intro hno
    rw [biomePlane_getElem chunk_x chunk_z flat width x z hx hz]
    unfold biomeValue
    dsimp only []
    rw [if_neg hno]
  · intro hlen hh1 hwx0 hwxw hwz0 hwzl
    have hw : 0 < width := lt_of_le_of_lt hwx0 hwxw
    have hl : 0 < length := lt_of_le_of_lt hwz0 hwzl
    constructor
    · have t2 : 0 ≤ (chunk_z * 16 + (z : Int)) * width :=
        mul_nonneg hwz0 hw.le
      omega
    · have e2 : (chunk_z * 16 + (z : Int)) * width ≤ (length - 1) * width :=
        mul_le_mul_of_nonneg_right (by omega) hw.le
      have e3 : (length - 1) * width + (width - 1) = width * length - 1 := by
        ring
      have e4 : 0 ≤ width * length * (height - 1) :=
        mul_nonneg (mul_nonneg hw.le hl.le) (by omega)
      have e5 : width * length * (height - 1)
          = width * height * length - width * length := by ring
      omega

/-- Witness for C6's amended theorem: footprint width 1, length 2, flat
[(7,0),(9,0)], local (0,0) reads byte0 = 7 of the voxel at linear index 0. -/
theorem biomePlane_spec_witness :
    (biomePlane 0 0 [(7, 0), (9, 0)] 1)[0 * 16 + 0]? = some 7 := by
  have h := (biomePlane_spec 0 0 [(7, 0), (9, 0)] 1 1 2 0 0 (by decide)
    (by decide) (by decide)).2.1 (by decide) (by decide)
  simpa using h

/-- C6 counterexample: for the 1×1×2 structure flat = [(7,0),(9,0)] at chunk
(0,0), the world column (x,z) = (1,0) lies outside the width-1 footprint —
the claim demands default biome 1 — yet the plane index 1·16+0 holds byte0
of flat[0·1+1] = 9, because the code guards the linear index, not the
footprint. -/
theorem biomePlane_outside_footprint_not_default :
    ¬ ((0 : Int) * 16 + 1 < 1) ∧
      (biomePlane 0 0 [(7, 0), (9, 0)] 1)[1 * 16 + 0]? = some 9 ∧
      some (9 : Nat) ≠ some 1 := by
  refine ⟨by decide, ?_, by decide⟩
  rw [biomePlane_getElem 0 0 [(7, 0), (9, 0)] 1 1 0 (by decide) (by decide)]
  decide

/-- One chunk iteration of `insert_structure` (nbt2cdb.py lines 264-276):
the subfile offset written, the chunk coordinates passed to
`write_chunk_to_subfile` and `update_index_entry`, and the slot number
recorded in the index entry. -/
structure ChunkOp where
  offset : Nat
  chunk_x : Int
  chunk_z : Int
  slot : Nat
deriving DecidableEq

/-- The iteration grid of the insertion loop: cz outer (`for cz in
range(chunks_z)`), cx inner. -/
def chunkGridPairs (chunks_z chunks_x : Nat) : List (Nat × Nat) :=
  (List.range chunks_z).flatMap fun cz =>
    (List.range chunks_x).map fun cx => (cz, cx)

/-- The loop body of `insert_structure` over the remaining (cz, cx) pairs,
threading the incrementing slot number.  The first two lets are the dead
per-block iteration of lines 266-270: `block_count = size[0]*size[1]*size[2]
if False else size[1]*16*16` and `for block_idx in range(size[1]*16*16):
pass`, embedded as a fold that never changes anything. -/
def insertGo (subsize chunks_x : Nat) (size : Int × Int × Int)
    (start_x start_z : Int) : List (Nat × Nat) → Nat → List ChunkOp
  | [], _ => []
  | (cz, cx) :: rest, slot =>
    let _block_count : Int :=
      if False then size.1 * size.2.1 * size.2.2 else size.2.1 * 16 * 16
    let _deadLoop : Unit :=
      (List.range (size.2.1 * 16 * 16).toNat).foldl (fun u _ => u) ()
    ChunkOp.mk (20 + (cz * chunks_x + cx) * subsize)
        (start_x + (cx : Int)) (start_z + (cz : Int)) slot
      :: insertGo subsize chunks_x size start_x start_z rest (slot + 1)

/-- `insert_structure` (nbt2cdb.py lines 257-278) as the sequence of chunk
operations it performs.  `subsize` is the subfile size read from the file
header; `chunks_x = (size[0]+15)//16`, `chunks_z = (size[2]+15)//16`
(Python floor division by the positive 16 agrees with Lean Int division);
iteration is cz outer, cx inner, offset `20 + (cz*chunks_x + cx)*subsize`,
chunk coordinates `(start_x+cx, start_z+cz)`, slot incremented once per
chunk. -/
def insert_structure (subsize : Nat) (size : Int × Int × Int)
    (start_x start_z : Int) (slot_number : Nat) : List ChunkOp :=
  let chunks_x := ((size.1 + 15) / 16).toNat
  let chunks_z := ((size.2.2 + 15) / 16).toNat
  insertGo subsize chunks_x size start_x start_z
    (chunkGridPairs chunks_z chunks_x) slot_number

/-- The same loop body with the dead per-block iteration removed — the
reference the spec says a faithful reimplementation should follow. -/
def insertGoClean (subsize chunks_x : Nat) (start_x start_z : Int) :
    List (Nat × Nat) → Nat → List ChunkOp
  | [], _ => []
  | (cz, cx) :: rest, slot =>
    ChunkOp.mk (20 + (cz * chunks_x + cx) * subsize)
        (start_x + (cx : Int)) (start_z + (cz : Int)) slot
      :: insertGoClean subsize chunks_x start_x start_z rest (slot + 1)

/-- Modelled from the spec: `insert_structure` with the dead, no-op
per-block loop (and its block_count computation) removed. -/
def insert_structure_clean (subsize : Nat) (size : Int × Int × Int)
    (start_x start_z : Int) (slot_number : Nat) : List ChunkOp :=
  let chunks_x := ((size.1 + 15) / 16).toNat
  let chunks_z := ((size.2.2 + 15) / 16).toNat
  insertGoClean subsize chunks_x start_x start_z
    (chunkGridPairs chunks_z chunks_x) slot_number

/-- The loop with the dead iteration equals the loop without it. -/
theorem insertGo_eq_clean (subsize chunks_x : Nat) (size : Int × Int × Int)
    (start_x start_z : Int) :
    ∀ (l : List (Nat × Nat)) (slot : Nat),
      insertGo subsize chunks_x size start_x start_z l slot
        = insertGoClean subsize chunks_x start_x start_z l slot := by
  intro l
  induction l with
  | nil => intro slot; rfl
  | cons p rest ih =>
    intro slot
    obtain ⟨cz, cx⟩ := p
    simp only [insertGo, insertGoClean]
    rw [ih]

/-- C9: the per-block iteration inside the insertion loop is a no-op:
`insert_structure` is observationally equal to the same function with the
inner per-block loop and its block_count computation removed, on every
input. -/
theorem insert_structure_dead_loop_noop (subsize : Nat)
    (size : Int × Int × Int) (start_x start_z : Int) (slot_number : Nat) :
    insert_structure subsize size start_x start_z slot_number
      = insert_structure_clean subsize size start_x start_z slot_number := by
  unfold insert_structure insert_structure_clean
  exact insertGo_eq_clean subsize _ size start_x start_z _ slot_number

/-- The loop emits one operation per grid pair. -/
theorem insertGo_length (subsize chunks_x : Nat) (size : Int × Int × Int)
    (start_x start_z : Int) :
    ∀ (l : List (Nat × Nat)) (slot : Nat),
      (insertGo subsize chunks_x size start_x start_z l slot).length
        = l.length := by
  intro l
  induction l with
  | nil => intro slot; rfl
  | cons p rest ih =>
    intro slot
    obtain ⟨cz, cx⟩ := p
    simp only [insertGo, List.length_cons, ih]

/-- Element k of the loop output, for grid pair p at position k: the slot is
the starting slot plus k. -/
theorem insertGo_getElem (subsize chunks_x : Nat) (size : Int × Int × Int)
    (start_x start_z : Int) :
    ∀ (l : List (Nat × Nat)) (slot k : Nat) (p : Nat × Nat),
      l[k]? = some p →
      (insertGo subsize chunks_x size start_x start_z l slot)[k]?
        = some (ChunkOp.mk (20 + (p.1 * chunks_x + p.2) * subsize)
            (start_x + (p.2 : Int)) (start_z + (p.1 : Int)) (slot + k)) := by
  intro l
  induction l with
  | nil => intro slot k p hp; simp at hp
  | cons q rest ih =>
    intro slot k p hp
    obtain ⟨cz, cx⟩ := q
    cases k with
    | zero =>
      simp only [List.getElem?_cons_zero, Option.some.injEq] at hp
      subst hp
      simp [insertGo]
    | succ m =>
      simp only [List.getElem?_cons_succ] at hp
      simp only [insertGo, List.getElem?_cons_succ]
      rw [ih (slot + 1) m p hp]
      have : slot + 1 + m = slot + (m + 1) := by omega
      rw [this]

/-- The iteration grid has chunks_z · chunks_x entries. -/
theorem chunkGridPairs_length (chunks_z chunks_x : Nat) :
    (chunkGridPairs chunks_z chunks_x).length = chunks_z * chunks_x := by
  unfold chunkGridPairs
  have hC : ∀ k, k < chunks_z →
      ((List.range chunks_x).map fun cx => (k, cx)).length = chunks_x := by
    intro k hk
    rw [List.length_map, List.length_range]
  rw [length_flatMap_const _ chunks_z chunks_x hC]

/-- Grid entry cz·chunks_x + cx is the pair (cz, cx). -/
theorem chunkGridPairs_getElem (chunks_z chunks_x cz cx : Nat)
    (hcz : cz < chunks_z) (hcx : cx < chunks_x) :
    (chunkGridPairs chunks_z chunks_x)[cz * chunks_x + cx]?
      = some (cz, cx) := by
  unfold chunkGridPairs
  have hC : ∀ k, k < chunks_z →
      ((List.range chunks_x).map fun c => (k, c)).length = chunks_x := by
    intro k hk
    rw [List.length_map, List.length_range]
  rw [getElem_flatMap_const _ chunks_z chunks_x cz cx hC hcz hcx,
    List.getElem?_map, List.getElem?_range hcx]
  rfl

/-- C8: the insertion loop iterates cz in [0, ceil(length/16)) outer and cx
in [0, ceil(width/16)) inner; the chunk at grid position (cz, cx) — overall
position k = cz·chunks_x + cx — is written at file offset
20 + k·subfile_size with chunk coordinates (start_x+cx, start_z+cz) and
index slot number slot0 + k; exactly chunks_z·chunks_x chunks are emitted;
and a structure spanning exactly one 16×16×(any height) chunk produces
exactly one operation, at offset 20, coordinates (start_x, start_z), with
the given starting slot number. -/
theorem insert_structure_spec (subsize : Nat) (width height length : Int)
    (start_x start_z : Int) (slot0 : Nat) :
    (∀ cz cx : Nat, cz < ((length + 15) / 16).toNat →
      cx < ((width + 15) / 16).toNat →
      (insert_structure subsize (width, height, length) start_x start_z
          slot0)[cz * ((width + 15) / 16).toNat + cx]?
        = some (ChunkOp.mk
            (20 + (cz * ((width + 15) / 16).toNat + cx) * subsize)
            (start_x + (cx : Int)) (start_z + (cz : Int))
            (slot0 + (cz * ((width + 15) / 16).toNat + cx)))) ∧
    (insert_structure subsize (width, height, length) start_x start_z
        slot0).length
      = ((length + 15) / 16).toNat * ((width + 15) / 16).toNat ∧
    (1 ≤ width → width ≤ 16 → 1 ≤ length → length ≤ 16 →
      insert_structure subsize (width, height, length) start_x start_z slot0
        = [ChunkOp.mk 20 start_x start_z slot0]) := by
  refine ⟨?_, ?_, ?_⟩
  · intro cz cx hcz hcx
    unfold insert_structure
    dsimp only []
    exact insertGo_getElem subsize ((width + 15) / 16).toNat
      (width, height, length) start_x start_z
      (chunkGridPairs ((length + 15) / 16).toNat ((width + 15) / 16).toNat)
      slot0 (cz * ((width + 15) / 16).toNat + cx) (cz, cx)
      (chunkGridPairs_getElem _ _ cz cx hcz hcx)
  · unfold insert_structure
    dsimp only []
    rw [insertGo_length, chunkGridPairs_length]
  · intro h1 h2 h3 h4
    have hcx1 : ((width + 15) / 16).toNat = 1 := by omega
    have hcz1 : ((length + 15) / 16).toNat = 1 := by omega
    unfold insert_structure
    dsimp only []
    rw [hcx1, hcz1]
    have hg : chunkGridPairs 1 1 = [(0, 0)] := rfl
    rw [hg]
    simp [insertGo]

/-- Witness for C8 at a one-chunk structure: subfile size 100, size
(16, 16, 16), start chunk (3, 4), starting slot 5. -/
theorem insert_structure_spec_witness :
    insert_structure 100 (16, 16, 16) 3 4 5 = [ChunkOp.mk 20 3 4 5] :=
  (insert_structure_spec 100 16 16 16 3 4 5).2.2 (by decide) (by decide)
    (by decide) (by decide)
